import Mathlib

/-
  Shallow embedding of the bbcdisasm 6502 disassembler (disassemble.go and
  opcodes.go, method-based Disassembler variant) and verification of the
  frozen claims about it.

  Conventions of the embedding:
  - Go uint is modelled as Nat together with explicit wrap-around at 2^64
    (wadd / wsub / wofInt) at exactly the operations the Go code performs.
  - Go byte slices are Lean List Nat; a Go slice expression that would panic
    (index beyond length, with capacity = length) makes the modelled pass
    return a panic value.
  - Go maps used as sets (iloc, usedOSAddress, usedOSVector, branchTargets
    candidates) are Lean lists with insert-if-absent; the places that iterate
    a map in key order (sort.Ints, text/template range) sort explicitly,
    mirroring the Go semantics.
  - Output written to the io.Writer is modelled as the list of emitted lines.
-/

namespace BbcDisasm

/-- Width of the Go uint type on the target platform. -/
def W : Nat := 18446744073709551616

/-- Go uint addition (wraps at 2^64). -/
def wadd (a b : Nat) : Nat := (a + b) % W

/-- Go uint subtraction (wraps at 2^64); callers keep operands below W. -/
def wsub (a b : Nat) : Nat := (a + W - b % W) % W

/-- Go conversion int -> uint (two-complement wrap at 2^64). -/
def wofInt (i : Int) : Nat := (i % (W : Int)).toNat

/-- AddressingMode enumerates the different address modes of 6502
instructions (opcodes.go). -/
inductive AddressingMode where
  | None
  | Accumulator
  | Immediate
  | Absolute
  | ZeroPage
  | ZeroPageX
  | ZeroPageY
  | Indirect
  | AbsoluteX
  | AbsoluteY
  | IndirectX
  | IndirectY
deriving DecidableEq, Repr

/-- Opcode defines a 6502 opcode (opcodes.go): byte value, mnemonic,
instruction length in bytes and addressing mode. -/
structure Opcode where
  Value : Nat
  Name : String
  Length : Nat
  AddrMode : AddressingMode
deriving DecidableEq, Repr

def OpJMP_Absolute : Nat := 0x4C
def OpJMP_Indirect : Nat := 0x6C
def OpJSR_Absolute : Nat := 0x20

/-- The opcode table of opcodes.go (all 167 entries, in source order;
split into four chunks only to keep elaboration of the literal fast). -/
def OpCodesA : List Opcode := [
  ⟨0x69, "ADC", 2, .Immediate⟩,
  ⟨0x65, "ADC", 2, .ZeroPage⟩,
  ⟨0x75, "ADC", 2, .ZeroPageX⟩,
  ⟨0x6D, "ADC", 3, .Absolute⟩,
  ⟨0x7D, "ADC", 3, .AbsoluteX⟩,
  ⟨0x79, "ADC", 3, .AbsoluteY⟩,
  ⟨0x61, "ADC", 2, .IndirectX⟩,
  ⟨0x71, "ADC", 2, .IndirectY⟩,
  ⟨0x0B, "ANC", 2, .Immediate⟩,
  ⟨0x2B, "ANC", 2, .Immediate⟩,
  ⟨0x29, "AND", 2, .Immediate⟩,
  ⟨0x25, "AND", 2, .ZeroPage⟩,
  ⟨0x35, "AND", 2, .ZeroPageX⟩,
  ⟨0x2D, "AND", 3, .Absolute⟩,
  ⟨0x3D, "AND", 3, .AbsoluteX⟩,
  ⟨0x39, "AND", 3, .AbsoluteY⟩,
  ⟨0x21, "AND", 2, .IndirectX⟩,
  ⟨0x31, "AND", 2, .IndirectY⟩,
  ⟨0x0A, "ASL", 1, .Accumulator⟩,
  ⟨0x06, "ASL", 2, .ZeroPage⟩,
  ⟨0x16, "ASL", 2, .ZeroPageX⟩,
  ⟨0x0E, "ASL", 3, .Absolute⟩,
  ⟨0x1E, "ASL", 3, .AbsoluteX⟩,
  ⟨0x24, "BIT", 2, .ZeroPage⟩,
  ⟨0x2C, "BIT", 3, .Absolute⟩,
  ⟨0x10, "BPL", 2, .None⟩,
  ⟨0x30, "BMI", 2, .None⟩,
  ⟨0x50, "BVC", 2, .None⟩,
  ⟨0x70, "BVS", 2, .None⟩,
  ⟨0x90, "BCC", 2, .None⟩,
  ⟨0xB0, "BCS", 2, .None⟩,
  ⟨0xD0, "BNE", 2, .None⟩,
  ⟨0xF0, "BEQ", 2, .None⟩,
  ⟨0x00, "BRK", 1, .None⟩,
  ⟨0xC9, "CMP", 2, .Immediate⟩,
  ⟨0xC5, "CMP", 2, .ZeroPage⟩,
  ⟨0xD5, "CMP", 2, .ZeroPageX⟩,
  ⟨0xCD, "CMP", 3, .Absolute⟩,
  ⟨0xDD, "CMP", 3, .AbsoluteX⟩,
  ⟨0xD9, "CMP", 3, .AbsoluteY⟩,
  ⟨0xC1, "CMP", 2, .IndirectX⟩,
  ⟨0xD1, "CMP", 2, .IndirectY⟩]

def OpCodesB : List Opcode := [
  ⟨0xE0, "CPX", 2, .Immediate⟩,
  ⟨0xE4, "CPX", 2, .ZeroPage⟩,
  ⟨0xEC, "CPX", 3, .Absolute⟩,
  ⟨0xC0, "CPY", 2, .Immediate⟩,
  ⟨0xC4, "CPY", 2, .ZeroPage⟩,
  ⟨0xCC, "CPY", 3, .Absolute⟩,
  ⟨0xC6, "DEC", 2, .ZeroPage⟩,
  ⟨0xD6, "DEC", 2, .ZeroPageX⟩,
  ⟨0xCE, "DEC", 3, .Absolute⟩,
  ⟨0xDE, "DEC", 3, .AbsoluteX⟩,
  ⟨0x49, "EOR", 2, .Immediate⟩,
  ⟨0x45, "EOR", 2, .ZeroPage⟩,
  ⟨0x55, "EOR", 2, .ZeroPageX⟩,
  ⟨0x4D, "EOR", 3, .Absolute⟩,
  ⟨0x5D, "EOR", 3, .AbsoluteX⟩,
  ⟨0x59, "EOR", 3, .AbsoluteY⟩,
  ⟨0x41, "EOR", 2, .IndirectX⟩,
  ⟨0x51, "EOR", 2, .IndirectY⟩,
  ⟨0x18, "CLC", 1, .None⟩,
  ⟨0x38, "SEC", 1, .None⟩,
  ⟨0x58, "CLI", 1, .None⟩,
  ⟨0x78, "SEI", 1, .None⟩,
  ⟨0xB8, "CLV", 1, .None⟩,
  ⟨0xD8, "CLD", 1, .None⟩,
  ⟨0xF8, "SED", 1, .None⟩,
  ⟨0xE6, "INC", 2, .ZeroPage⟩,
  ⟨0xF6, "INC", 2, .ZeroPageX⟩,
  ⟨0xEE, "INC", 3, .Absolute⟩,
  ⟨0xFE, "INC", 3, .AbsoluteX⟩,
  ⟨0x4C, "JMP", 3, .Absolute⟩,
  ⟨0x6C, "JMP", 3, .Indirect⟩,
  ⟨0x20, "JSR", 3, .Absolute⟩,
  ⟨0xA9, "LDA", 2, .Immediate⟩,
  ⟨0xA5, "LDA", 2, .ZeroPage⟩,
  ⟨0xB5, "LDA", 2, .ZeroPageX⟩,
  ⟨0xAD, "LDA", 3, .Absolute⟩,
  ⟨0xBD, "LDA", 3, .AbsoluteX⟩,
  ⟨0xB9, "LDA", 3, .AbsoluteY⟩,
  ⟨0xA1, "LDA", 2, .IndirectX⟩,
  ⟨0xB1, "LDA", 2, .IndirectY⟩,
  ⟨0xA2, "LDX", 2, .Immediate⟩,
  ⟨0xA6, "LDX", 2, .ZeroPage⟩]

def OpCodesC : List Opcode := [
  ⟨0xB6, "LDX", 2, .ZeroPageY⟩,
  ⟨0xAE, "LDX", 3, .Absolute⟩,
  ⟨0xBE, "LDX", 3, .AbsoluteY⟩,
  ⟨0xA0, "LDY", 2, .Immediate⟩,
  ⟨0xA4, "LDY", 2, .ZeroPage⟩,
  ⟨0xB4, "LDY", 2, .ZeroPageX⟩,
  ⟨0xAC, "LDY", 3, .Absolute⟩,
  ⟨0xBC, "LDY", 3, .AbsoluteX⟩,
  ⟨0x4A, "LSR", 1, .Accumulator⟩,
  ⟨0x46, "LSR", 2, .ZeroPage⟩,
  ⟨0x56, "LSR", 2, .ZeroPageX⟩,
  ⟨0x4E, "LSR", 3, .Absolute⟩,
  ⟨0x5E, "LSR", 3, .AbsoluteX⟩,
  ⟨0xEA, "NOP", 1, .None⟩,
  ⟨0x09, "ORA", 2, .Immediate⟩,
  ⟨0x05, "ORA", 2, .ZeroPage⟩,
  ⟨0x15, "ORA", 2, .ZeroPageX⟩,
  ⟨0x0D, "ORA", 3, .Absolute⟩,
  ⟨0x1D, "ORA", 3, .AbsoluteX⟩,
  ⟨0x19, "ORA", 3, .AbsoluteY⟩,
  ⟨0x01, "ORA", 2, .IndirectX⟩,
  ⟨0x11, "ORA", 2, .IndirectY⟩,
  ⟨0xAA, "TAX", 1, .None⟩,
  ⟨0x8A, "TXA", 1, .None⟩,
  ⟨0xCA, "DEX", 1, .None⟩,
  ⟨0xE8, "INX", 1, .None⟩,
  ⟨0xA8, "TAY", 1, .None⟩,
  ⟨0x98, "TYA", 1, .None⟩,
  ⟨0x88, "DEY", 1, .None⟩,
  ⟨0xC8, "INY", 1, .None⟩,
  ⟨0x2A, "ROL", 1, .Accumulator⟩,
  ⟨0x26, "ROL", 2, .ZeroPage⟩,
  ⟨0x36, "ROL", 2, .ZeroPageX⟩,
  ⟨0x2E, "ROL", 3, .Absolute⟩,
  ⟨0x3E, "ROL", 3, .AbsoluteX⟩,
  ⟨0x6A, "ROR", 1, .Accumulator⟩,
  ⟨0x66, "ROR", 2, .ZeroPage⟩,
  ⟨0x76, "ROR", 2, .ZeroPageX⟩,
  ⟨0x6E, "ROR", 3, .Absolute⟩,
  ⟨0x7E, "ROR", 3, .AbsoluteX⟩,
  ⟨0x40, "RTI", 1, .None⟩,
  ⟨0x60, "RTS", 1, .None⟩]

def OpCodesD : List Opcode := [
  ⟨0xE9, "SBC", 2, .Immediate⟩,
  ⟨0xE5, "SBC", 2, .ZeroPage⟩,
  ⟨0xF5, "SBC", 2, .ZeroPageX⟩,
  ⟨0xED, "SBC", 3, .Absolute⟩,
  ⟨0xFD, "SBC", 3, .AbsoluteX⟩,
  ⟨0xF9, "SBC", 3, .AbsoluteY⟩,
  ⟨0xE1, "SBC", 2, .IndirectX⟩,
  ⟨0xF1, "SBC", 2, .IndirectY⟩,
  ⟨0x47, "SRE", 2, .ZeroPage⟩,
  ⟨0x57, "SRE", 2, .ZeroPageX⟩,
  ⟨0x4F, "SRE", 3, .Absolute⟩,
  ⟨0x5F, "SRE", 3, .AbsoluteX⟩,
  ⟨0x5B, "SRE", 3, .AbsoluteY⟩,
  ⟨0x43, "SRE", 2, .IndirectX⟩,
  ⟨0x53, "SRE", 2, .IndirectY⟩,
  ⟨0x85, "STA", 2, .ZeroPage⟩,
  ⟨0x95, "STA", 2, .ZeroPageX⟩,
  ⟨0x8D, "STA", 3, .Absolute⟩,
  ⟨0x9D, "STA", 3, .AbsoluteX⟩,
  ⟨0x99, "STA", 3, .AbsoluteY⟩,
  ⟨0x81, "STA", 2, .IndirectX⟩,
  ⟨0x91, "STA", 2, .IndirectY⟩,
  ⟨0x9A, "TXS", 1, .None⟩,
  ⟨0xBA, "TSX", 1, .None⟩,
  ⟨0x48, "PHA", 1, .None⟩,
  ⟨0x68, "PLA", 1, .None⟩,
  ⟨0x08, "PHP", 1, .None⟩,
  ⟨0x28, "PLP", 1, .None⟩,
  ⟨0x07, "SLO", 2, .ZeroPage⟩,
  ⟨0x17, "SLO", 2, .ZeroPageX⟩,
  ⟨0x0F, "SLO", 3, .Absolute⟩,
  ⟨0x1F, "SLO", 3, .AbsoluteX⟩,
  ⟨0x1B, "SLO", 3, .AbsoluteY⟩,
  ⟨0x03, "SLO", 2, .IndirectX⟩,
  ⟨0x13, "SLO", 2, .IndirectY⟩,
  ⟨0x86, "STX", 2, .ZeroPage⟩,
  ⟨0x96, "STX", 2, .ZeroPageY⟩,
  ⟨0x8E, "STX", 3, .Absolute⟩,
  ⟨0x84, "STY", 2, .ZeroPage⟩,
  ⟨0x94, "STY", 2, .ZeroPageX⟩,
  ⟨0x8C, "STY", 3, .Absolute⟩]

def OpCodes : List Opcode := OpCodesA ++ OpCodesB ++ OpCodesC ++ OpCodesD


/-- OpCodesMap: byte value to Opcode lookup. The Go map is built by
iterating OpCodes; its values are pairwise distinct, so first-match
lookup agrees with the Go map. -/
def OpCodesMap (b : Nat) : Option Opcode :=
  OpCodes.find? (fun op => op.Value == b)

def UndocumentedInstructions : List String := ["ANC", "SRE", "SLO"]

def branchInstructions : List String :=
  ["BPL", "BMI", "BVC", "BVS", "BCC", "BCS", "BNE", "BEQ"]

def jumpInstructions : List String := ["JMP", "JSR"]

/-- isOpcodeDocumented (disassemble.go): false iff the mnemonic appears in
UndocumentedInstructions. -/
def isOpcodeDocumented (op : Opcode) : Bool :=
  !(UndocumentedInstructions.any (fun u => op.Name == u))

inductive branchType where
  | btNeither
  | btBranch
  | btJump
deriving DecidableEq, Repr

open branchType

/-- Opcode.branchOrJump (opcodes.go): classify by mnemonic membership in the
fixed branch and jump mnemonic lists. -/
def Opcode.branchOrJump (o : Opcode) : branchType :=
  if branchInstructions.any (fun v => o.Name == v) then btBranch
  else if jumpInstructions.any (fun v => o.Name == v) then btJump
  else btNeither

/-- addressToOsCallName (opcodes.go): absolute addresses of well known BBC
Micro OS calls. -/
def addressToOsCallName : List (Nat × String) := [
  (0xFFB9, "OSRDRM"),
  (0xFFBF, "OSEVEN"),
  (0xFFC2, "GSINIT"),
  (0xFFC5, "GSREAD"),
  (0xFFC8, "NVRDCH"),
  (0xFFCB, "NVWRCH"),
  (0xFFCE, "OSFIND"),
  (0xFFE0, "OSRDCH"),
  (0xFFE3, "OSASCI"),
  (0xFFE7, "OSNEWL"),
  (0xFFEE, "OSWRCH"),
  (0xFFF1, "OSWORD"),
  (0xFFF4, "OSBYTE"),
  (0xFFF7, "OSCLI")]

/-- osVectorAddresses (opcodes.go): OS vector addresses and identifiers. -/
def osVectorAddresses : List (Nat × String) := [
  (0x200, "USERV"),
  (0x202, "BRKV"),
  (0x204, "IRQ1V"),
  (0x206, "IRQ2V"),
  (0x208, "CLIV"),
  (0x20A, "BYTEV"),
  (0x20C, "WORDV"),
  (0x20E, "WRCHV"),
  (0x210, "RDCHV"),
  (0x212, "FILEV"),
  (0x214, "ARGV"),
  (0x216, "BGETV"),
  (0x218, "BPUTV"),
  (0x21A, "GBPBV"),
  (0x21C, "FINDV"),
  (0x21E, "FSCV"),
  (0x220, "EVENTV"),
  (0x222, "UPTV"),
  (0x224, "NETV"),
  (0x226, "VDUV"),
  (0x228, "KEYV"),
  (0x22A, "INSV"),
  (0x22C, "REMV"),
  (0x22E, "CNPV"),
  (0x230, "IND1V"),
  (0x232, "IND2V"),
  (0x234, "IND3V")]

/-- Lookup in an address-to-name registry (Go map read m[k]). -/
def lookupAssoc (m : List (Nat × String)) (k : Nat) : Option String :=
  (m.find? (fun p => p.1 == k)).map (fun p => p.2)

def labelFormatString : Nat → String := fun i => "label_" ++ toString i

/- ----------------------------------------------------------------- -/
/- Formatting helpers (fmt verbs used by the source, strings.Builder) -/
/- ----------------------------------------------------------------- -/

/-- A run of n spaces (bytes.Repeat of a space in appendSpaces). -/
def spacesStr (n : Nat) : String := String.mk (List.replicate n ' ')

def hexDigitChar (n : Nat) : Char :=
  if n < 10 then Char.ofNat (48 + n) else Char.ofNat (55 + n)

/-- Digit recursion for toHexUpper; structural on a fuel argument so that
it reduces in the kernel. fuel = n + 1 always suffices because n / 16 < n
for n at least 16. -/
def toHexUpperAux : Nat → Nat → List Char
  | 0, _ => []
  | _fuel + 1, n =>
    if n < 16 then [hexDigitChar n]
    else toHexUpperAux _fuel (n / 16) ++ [hexDigitChar (n % 16)]

/-- Uppercase hexadecimal digits of n, no padding (fmt %X). -/
def toHexUpper (n : Nat) : String := String.mk (toHexUpperAux (n + 1) n)

/-- fmt %0wX: zero-pad the uppercase hex form on the left to width w. -/
def hexPad (w n : Nat) : String :=
  let s := toHexUpper n
  String.mk (List.replicate (w - s.length) '0') ++ s

/-- fmt %02X. -/
def hex2 (n : Nat) : String := hexPad 2 n

/-- fmt %04X. -/
def hex4 (n : Nat) : String := hexPad 4 n

/-- fmt %+d for the int offset in genBranch. -/
def goPlusD (i : Int) : String :=
  if i < 0 then toString i else "+" ++ toString i

/-- fmt %-ws: left-justify, pad on the right with spaces to width w. -/
def padRight (s : String) (w : Nat) : String := s ++ spacesStr (w - s.length)

/-- toChar (disassemble.go): printable ASCII byte or a dot. -/
def toChar (b : Nat) : Char :=
  if b < 32 || b > 126 then '.' else Char.ofNat b

/-- appendSpaces + the byte loop of appendPrintableBytes (disassemble.go),
operating on the accumulated builder content s. -/
def appendPrintableBytes (s : String) (b : List Nat) : String :=
  s ++ spacesStr (max (44 - s.length) 1) ++ String.mk (b.map toChar)

/- ------------------------------------------------ -/
/- Operand decoding (opcodes.go)                    -/
/- ------------------------------------------------ -/

/-- Read of the branchTargets map (surviving target address to label
index). -/
def lookupTable (t : List (Nat × Nat)) (k : Nat) : Option Nat :=
  (t.find? (fun p => p.1 == k)).map (fun p => p.2)

/-- genBranch (opcodes.go): render a relative branch operand, with the
global branchTargets map passed explicitly. -/
def genBranch (table : List (Nat × Nat)) (bytes : List Nat)
    (cursor branchAdjust : Nat) : String :=
  let b1 := bytes.getD 1 0
  let boff : Int := (if b1 > 127 then (b1 : Int) - 256 else (b1 : Int)) + 2
  let tgt := wadd (wadd cursor (wofInt boff)) branchAdjust
  match lookupTable table tgt with
  | Option.none => "P%" ++ goPlusD boff
  | Option.some tgtIdx => labelFormatString tgtIdx

/-- genAbsoluteOsCall (opcodes.go): JMP/JSR absolute operand with OS call
naming, the globals passed explicitly. -/
def genAbsoluteOsCall (osCalls : List (Nat × String))
    (table : List (Nat × Nat)) (bytes : List Nat) : String :=
  let addr := (bytes.getD 2 0) <<< 8 + bytes.getD 1 0
  match lookupAssoc osCalls addr with
  | Option.some osCall => osCall
  | Option.none =>
    match lookupTable table addr with
    | Option.some tgtIdx => labelFormatString tgtIdx
    | Option.none => "&" ++ hex4 addr

/-- decode (opcodes.go): operand text per addressing mode. The in-scope
globals (OS call registry, branchTargets) are explicit parameters. -/
def decode (osCalls : List (Nat × String)) (table : List (Nat × Nat))
    (op : Opcode) (bytes : List Nat) (cursor branchAdjust : Nat) : String :=
  if bytes.getD 0 0 == OpJMP_Absolute || bytes.getD 0 0 == OpJSR_Absolute then
    genAbsoluteOsCall osCalls table bytes
  else if op.branchOrJump == btBranch then
    genBranch table bytes cursor branchAdjust
  else
    match op.AddrMode with
    | .None => ""
    | .Accumulator => "A"
    | .Immediate => "#&" ++ hex2 (bytes.getD 1 0)
    | .Absolute =>
      let val := (bytes.getD 2 0) <<< 8 + bytes.getD 1 0
      match lookupAssoc osVectorAddresses val with
      | Option.some osv => osv
      | Option.none =>
        -- val - val % 2 clears the bottom bit, the andnot of the source
        match lookupAssoc osVectorAddresses (val - val % 2) with
        | Option.some osv => osv ++ "+1"
        | Option.none => "&" ++ hex4 val
    | .ZeroPage => "&" ++ hex2 (bytes.getD 1 0)
    | .ZeroPageX => "&" ++ hex2 (bytes.getD 1 0) ++ ",X"
    | .ZeroPageY => "&" ++ hex2 (bytes.getD 1 0) ++ ",Y"
    | .Indirect =>
      "(&" ++ hex4 ((bytes.getD 2 0) <<< 8 + bytes.getD 1 0) ++ ")"
    | .AbsoluteX =>
      "&" ++ hex4 ((bytes.getD 2 0) <<< 8 + bytes.getD 1 0) ++ ",X"
    | .AbsoluteY =>
      "&" ++ hex4 ((bytes.getD 2 0) <<< 8 + bytes.getD 1 0) ++ ",Y"
    | .IndirectX => "(&" ++ hex2 (bytes.getD 1 0) ++ ",X)"
    | .IndirectY => "(&" ++ hex2 (bytes.getD 1 0) ++ "),Y"

/- ------------------------------------------------ -/
/- Line formatting (disassemble.go)                 -/
/- ------------------------------------------------ -/

/-- printInstruction (disassemble.go), appending to builder content s. -/
def printInstruction (osCalls : List (Nat × String))
    (table : List (Nat × Nat)) (s : String) (op : Opcode)
    (instruction : List Nat) (cursor branchAdjust : Nat) : String :=
  let s := s ++ op.Name ++ " "
    ++ decode osCalls table op instruction cursor branchAdjust
  let s := s ++ spacesStr (max (24 - s.length) 1) ++ "\\ "
  let s := s ++ String.intercalate (" ")
    (("&" ++ hex4 (wadd cursor branchAdjust)) :: instruction.map hex2)
  appendPrintableBytes s instruction

/-- printData (disassemble.go), appending to builder content s. -/
def printData (s : String) (data : List Nat) (address : Nat) : String :=
  let s := s ++ "EQUB "
    ++ String.intercalate (",") (data.map (fun i => "&" ++ hex2 i))
  s ++ spacesStr (max (24 - s.length) 1) ++ "\\ " ++ "&" ++ hex4 address ++ " "

/-- willAssembleIdentically (disassemble.go): false when beebasm would fold
a 16-bit absolute operand in the zero page to the shorter zero-page
encoding, changing the emitted bytes. -/
def willAssembleIdentically (op : Opcode) (instruction : List Nat) : Bool :=
  if op.AddrMode == .Absolute || op.AddrMode == .AbsoluteX
      || op.AddrMode == .AbsoluteY then
    let tgt := (instruction.getD 2 0) <<< 8 + instruction.getD 1 0
    if tgt < 0x100 then false else true
  else true

/- ------------------------------------------------ -/
/- The Disassembler and its two passes              -/
/- ------------------------------------------------ -/

/-- The Disassembler struct (disassemble.go). The used-OS sets are the
mutable maps owned by the struct, modelled as membership lists. -/
structure Disassembler where
  Program : List Nat
  MaxBytes : Nat
  Offset : Nat
  BranchAdjust : Nat
  CodeAddrs : List Nat
  usedOSAddress : List Nat
  usedOSVector : List Nat
deriving DecidableEq, Repr

/-- NewDisassembler (disassemble.go): fresh empty used-OS sets. -/
def NewDisassembler (program : List Nat) : Disassembler :=
  ⟨program, 0, 0, 0, [], [], []⟩

/-- Go map insert m[k] = true, for maps used as sets (membership list,
insert if absent). -/
def insertKey (l : List Nat) (k : Nat) : List Nat :=
  if l.contains k then l else l ++ [k]

/-- Loop state of findBranchTargets (disassemble.go lines 266-271),
including the set accumulators it mutates. -/
structure AnalSt where
  cursor : Nat
  prevCur : Nat
  codeAddrIdx : Nat
  iloc : List Nat
  branchTargets : List Nat
  usedOSAddress : List Nat
  usedOSVector : List Nat
deriving DecidableEq, Repr

/-- The snap-forward preamble of the findBranchTargets loop (disassemble.go
lines 274-281): it subtracts BranchAdjust from the (already adjusted)
CodeAddrs entry, exactly as line 276 does. Returns the new cursor and
code-address index. -/
def analyzerSnap (d : Disassembler) (cursor prevCur codeAddrIdx : Nat) :
    Nat × Nat :=
  if h : codeAddrIdx < d.CodeAddrs.length then
    let ca := wsub (d.CodeAddrs[codeAddrIdx]) d.BranchAdjust
    if prevCur < ca ∧ ca ≤ cursor then (ca, codeAddrIdx + 1)
    else (cursor, codeAddrIdx)
  else (cursor, codeAddrIdx)

/-- One iteration of the findBranchTargets loop body (disassemble.go lines
272-342). Option.none models a Go slice/index panic. The straddle check
uses the CodeAddrs entry unsubtracted (line 292). -/
def analyzerStep (d : Disassembler) (osCalls : List (Nat × String))
    (s : AnalSt) : Option AnalSt :=
  let snapped := analyzerSnap d s.cursor s.prevCur s.codeAddrIdx
  let cursor := snapped.1
  let codeAddrIdx := snapped.2
  let prevCur := cursor
  let iloc := insertKey s.iloc (wadd cursor d.BranchAdjust)
  match d.Program.get? cursor with
  | Option.none => Option.none
  | Option.some b =>
    match OpCodesMap b with
    | Option.some op =>
      let straddledCA : Option Nat :=
        match d.CodeAddrs[codeAddrIdx]? with
        | Option.some ca2 =>
          if ca2 < wadd cursor op.Length then Option.some ca2 else Option.none
        | Option.none => Option.none
      match straddledCA with
      | Option.some ca2 =>
        Option.some ⟨wadd cursor (wsub ca2 cursor), prevCur, codeAddrIdx + 1,
          iloc, s.branchTargets, s.usedOSAddress, s.usedOSVector⟩
      | Option.none =>
        let hi := wadd cursor op.Length
        if cursor ≤ hi ∧ hi ≤ d.Program.length then
          let instruction := (d.Program.drop cursor).take (hi - cursor)
          match op.branchOrJump with
          | btBranch =>
            let b1 := instruction.getD 1 0
            let boff : Int :=
              (if b1 > 127 then (b1 : Int) - 256 else (b1 : Int)) + 2
            let tgt := wadd (wadd cursor (wofInt boff)) d.BranchAdjust
            Option.some ⟨wadd cursor instruction.length, prevCur, codeAddrIdx,
              iloc, insertKey s.branchTargets tgt, s.usedOSAddress,
              s.usedOSVector⟩
          | btJump =>
            if b ≠ OpJMP_Indirect then
              let tgt := (instruction.getD 2 0) <<< 8 + instruction.getD 1 0
              let os :=
                if (lookupAssoc osCalls tgt).isSome then
                  insertKey s.usedOSAddress tgt
                else s.usedOSAddress
              Option.some ⟨wadd cursor instruction.length, prevCur,
                codeAddrIdx, iloc, insertKey s.branchTargets tgt, os,
                s.usedOSVector⟩
            else
              Option.some ⟨wadd cursor instruction.length, prevCur,
                codeAddrIdx, iloc, s.branchTargets, s.usedOSAddress,
                s.usedOSVector⟩
          | btNeither =>
            let vec :=
              if op.AddrMode == .Absolute then
                let tgt := (instruction.getD 2 0) <<< 8 + instruction.getD 1 0
                if (lookupAssoc osVectorAddresses tgt).isSome then
                  insertKey s.usedOSVector tgt
                else s.usedOSVector
              else s.usedOSVector
            Option.some ⟨wadd cursor instruction.length, prevCur, codeAddrIdx,
              iloc, s.branchTargets, s.usedOSAddress, vec⟩
        else Option.none
    | Option.none =>
      Option.some ⟨wadd cursor 1, prevCur, codeAddrIdx, iloc, s.branchTargets,
        s.usedOSAddress, s.usedOSVector⟩

/-- The findBranchTargets loop (fuel-bounded). Besides the final state it
returns the list of in-buffer positions the pass visited (each iteration
records its post-snap cursor, which the step stores in prevCur). -/
def analyzerLoop (d : Disassembler) (osCalls : List (Nat × String)) :
    Nat → AnalSt → List Nat → Option (AnalSt × List Nat)
  | 0, _, _ => Option.none
  | Nat.succ fuel, s, visited =>
    if s.cursor < wadd d.Offset d.MaxBytes then
      match analyzerStep d osCalls s with
      | Option.none => Option.none
      | Option.some s2 =>
        analyzerLoop d osCalls fuel s2 (visited ++ [s2.prevCur])
    else Option.some (s, visited)

/-- The final index assignment of findBranchTargets: i-th sorted survivor
gets index i (for i, v in range bt). -/
def indexify : Nat → List Nat → List (Nat × Nat)
  | _, [] => []
  | i, a :: rest => (a, i) :: indexify (i + 1) rest

/-- sort.Ints / ascending map-key iteration. -/
def sortNat (l : List Nat) : List Nat := List.insertionSort (· ≤ ·) l

/-- The post-loop part of findBranchTargets (disassemble.go lines 344-364):
drop candidate targets that are not reachable instruction starts, sort the
survivors and assign label indices in ascending address order. -/
def buildLabelTable (targets iloc : List Nat) : List (Nat × Nat) :=
  indexify 0 (sortNat (targets.filter (fun t => iloc.contains t)))

/-- Result of the analyzer pass. -/
structure AnalyzerResult where
  table : List (Nat × Nat)
  iloc : List Nat
  branchTargets : List Nat
  usedOSAddress : List Nat
  usedOSVector : List Nat
  visited : List Nat
deriving DecidableEq, Repr

/-- Disassembler.findBranchTargets (disassemble.go): run the scan loop from
the offset and build the label table. -/
def Disassembler.findBranchTargets (d : Disassembler)
    (osCalls : List (Nat × String)) (fuel : Nat) : Option AnalyzerResult :=
  match analyzerLoop d osCalls fuel
      ⟨d.Offset, d.Offset, 0, [], [], d.usedOSAddress, d.usedOSVector⟩ [] with
  | Option.none => Option.none
  | Option.some (s, visited) =>
    Option.some ⟨buildLabelTable s.branchTargets s.iloc, s.iloc,
      s.branchTargets, s.usedOSAddress, s.usedOSVector, visited⟩

/-- Loop state of the decode pass of Disassemble (disassemble.go lines
72-74). -/
structure DecSt where
  cursor : Nat
  prevCur : Nat
  codeAddrIdx : Nat
deriving DecidableEq, Repr

/-- Result of one decode iteration: the lines written to w, and either the
next state or a Go panic (lines already written are kept with the panic). -/
inductive StepRes where
  | panic (emitted : List String)
  | next (emitted : List String) (s : DecSt)
deriving DecidableEq, Repr

def StepRes.isPanic : StepRes → Bool
  | .panic _ => true
  | .next _ _ => false

/-- The straddle test of the decode pass (disassemble.go lines 121-124):
cursor plus instruction length reaches or exceeds the next pending code
address. -/
def straddles (d : Disassembler) (codeAddrIdx cursor len : Nat) : Bool :=
  if h : codeAddrIdx < d.CodeAddrs.length then
    decide (d.CodeAddrs[codeAddrIdx] ≤ wadd cursor len)
  else false

/-- The snap-forward preamble of the decode loop (disassemble.go lines
76-84): it uses the CodeAddrs entry directly (line 79), without the extra
BranchAdjust subtraction the analyzer pass performs. -/
def decodeSnap (d : Disassembler) (cursor prevCur codeAddrIdx : Nat) :
    Nat × Nat :=
  if h : codeAddrIdx < d.CodeAddrs.length then
    let ca := d.CodeAddrs[codeAddrIdx]
    if prevCur < ca ∧ ca ≤ cursor then (ca, codeAddrIdx + 1)
    else (cursor, codeAddrIdx)
  else (cursor, codeAddrIdx)

/-- One iteration of the decode loop body of Disassemble (disassemble.go
lines 75-167). -/
def decodeStep (d : Disassembler) (osCalls : List (Nat × String))
    (table : List (Nat × Nat)) (s : DecSt) : StepRes :=
  let snapped := decodeSnap d s.cursor s.prevCur s.codeAddrIdx
  let cursor := snapped.1
  let codeAddrIdx := snapped.2
  let prevCur := cursor
  let labelLines : List String :=
    match lookupTable table (wadd cursor d.BranchAdjust) with
    | Option.some targetIdx => ["." ++ labelFormatString targetIdx]
    | Option.none => []
  match d.Program.get? cursor with
  | Option.none => .panic labelLines
  | Option.some b =>
    match OpCodesMap b with
    | Option.some op =>
      let hi := wadd cursor op.Length
      if cursor ≤ hi ∧ hi ≤ d.Program.length then
        let instruction := (d.Program.drop cursor).take (hi - cursor)
        let doc := isOpcodeDocumented op
        let wai := willAssembleIdentically op instruction
        let str := straddles d codeAddrIdx cursor op.Length
        if doc && wai && !str then
          let line := printInstruction osCalls table (" ") op instruction
            cursor d.BranchAdjust
          .next (labelLines ++ [line])
            ⟨wadd cursor op.Length, prevCur, codeAddrIdx⟩
        else
          let trimmed : Option (List Nat) :=
            if str then
              let nb := wsub (d.CodeAddrs.getD codeAddrIdx 0) cursor
              if nb ≤ d.Program.length - cursor then
                Option.some ((d.Program.drop cursor).take nb)
              else Option.none
            else Option.some instruction
          match trimmed with
          | Option.none => .panic labelLines
          | Option.some instruction =>
            let line := printData (" ") instruction (wadd cursor d.BranchAdjust)
            let line := if !doc then line ++ "UD " ++ op.Name else line
            let line := appendPrintableBytes line instruction
            .next (labelLines ++ [line])
              ⟨wadd cursor instruction.length, prevCur, codeAddrIdx⟩
      else .panic labelLines
    | Option.none =>
      let bs := [b]
      let line := appendPrintableBytes
        (printData (" ") bs (wadd cursor d.BranchAdjust)) bs
      .next (labelLines ++ [line]) ⟨wadd cursor 1, prevCur, codeAddrIdx⟩

/-- The decode loop of Disassemble (fuel-bounded), collecting the emitted
lines and, as for the analyzer, the visited in-buffer positions. -/
def decodeLoop (d : Disassembler) (osCalls : List (Nat × String))
    (table : List (Nat × Nat)) :
    Nat → DecSt → List String → List Nat → Option (List String × List Nat)
  | 0, _, _, _ => Option.none
  | Nat.succ fuel, s, lines, visited =>
    if s.cursor < wadd d.Offset d.MaxBytes then
      match decodeStep d osCalls table s with
      | .panic _ => Option.none
      | .next emitted s2 =>
        decodeLoop d osCalls table fuel s2 (lines ++ emitted)
          (visited ++ [s2.prevCur])
    else Option.some (lines, visited)

/-- The first banner line of the disasmHeader template. -/
def disasmBanner : String := "\\ " ++ String.mk (List.replicate 78 '*')

/-- The disasmHeader text/template of disassemble.go rendered to lines.
A template range over a Go map iterates keys in ascending order; the
whitespace-trim markers of the template leave one empty line after each
of the three optional sections. -/
def disasmHeaderLines (osCalls : List (Nat × String))
    (usedOSAddress usedOSVector : List Nat) (loadAddr : Nat) : List String :=
  [disasmBanner, "\\", "\\ This disassembly was produced by bbcdisasm", "\\",
    disasmBanner, ""]
  ++ (if usedOSAddress.isEmpty then [] else
      "\\ OS Call Addresses" ::
        (sortNat usedOSAddress).map (fun addr =>
          padRight ((lookupAssoc osCalls addr).getD ("")) 6
            ++ " = &" ++ toHexUpper addr))
  ++ [""]
  ++ (if usedOSVector.isEmpty then [] else
      "\\ OS Vector Addresses" ::
        (sortNat usedOSVector).map (fun addr =>
          padRight ((lookupAssoc osVectorAddresses addr).getD ("")) 5
            ++ " = &" ++ toHexUpper addr))
  ++ [""]
  ++ (if loadAddr != 0 then ["CODE% = &" ++ toHexUpper loadAddr, "",
        "ORG CODE%"] else [])
  ++ [""]

/-- Everything Disassemble produces: the output lines, the label table the
run used, the positions each pass visited, and the Disassembler state
after the call (CodeAddrs sorted and adjusted in place, used-OS sets
grown). -/
structure DisResult where
  lines : List String
  table : List (Nat × Nat)
  analyzerVisited : List Nat
  decodeVisited : List Nat
  final : Disassembler
deriving DecidableEq, Repr

/-- Disassembler.Disassemble (disassemble.go): sort and adjust CodeAddrs in
place, run findBranchTargets, render the header, run the decode loop. -/
def Disassembler.Disassemble (d : Disassembler)
    (osCalls : List (Nat × String)) (fuel : Nat) : Option DisResult :=
  let codeAddrs :=
    if 0 < d.CodeAddrs.length then
      (sortNat d.CodeAddrs).map (fun ca => wsub ca d.BranchAdjust)
    else d.CodeAddrs
  let d := { d with CodeAddrs := codeAddrs }
  match d.findBranchTargets osCalls fuel with
  | Option.none => Option.none
  | Option.some fb =>
    let header := disasmHeaderLines osCalls fb.usedOSAddress fb.usedOSVector
      d.BranchAdjust
    match decodeLoop d osCalls fb.table fuel ⟨d.Offset, d.Offset, 0⟩ [] [] with
    | Option.none => Option.none
    | Option.some (body, visited) =>
      Option.some ⟨header ++ body, fb.table, fb.visited, visited,
        { d with usedOSAddress := fb.usedOSAddress,
                 usedOSVector := fb.usedOSVector }⟩

/- ------------------------------------------------ -/
/- Concrete configurations used by the claims       -/
/- ------------------------------------------------ -/

/-- Program AD 12 00 (absolute-mode LDA of address 0x0012), full window. -/
def cfg1 : Disassembler := { NewDisassembler [0xAD, 0x12, 0x00] with MaxBytes := 3 }

/-- Program used for the snap-forward divergence: LDA &1234, a data byte,
BEQ back to buffer position 2, with load address 2 and the user code
address 6 (buffer position 4 after the adjustment in Disassemble). -/
def cfg23 : Disassembler :=
  { NewDisassembler [0xAD, 0x34, 0x12, 0x02, 0xF0, 0xFC] with
      MaxBytes := 6, BranchAdjust := 2, CodeAddrs := [6] }

/-- NOP with the known-code address equal to the start offset. -/
def cfg5 : Disassembler :=
  { NewDisassembler [0xEA] with MaxBytes := 1, CodeAddrs := [0] }

/-- LDA immediate whose two bytes end exactly at the known-code address 2
(the boundary case of the straddle test). -/
def cfg4 : Disassembler :=
  { NewDisassembler [0xA9, 0xC8] with MaxBytes := 2, CodeAddrs := [2] }

/-- BEQ with displacement 0x10: its computed target 18 is past the
window, hence not a reachable instruction start. -/
def cfg7 : Disassembler := { NewDisassembler [0xF0, 0x10] with MaxBytes := 2 }

/-- A recognized 3-byte opcode (LDA absolute) starting at the last byte of
the program buffer. -/
def cfg10 : Disassembler := { NewDisassembler [0xEA, 0xAD] with MaxBytes := 2 }

/-- Program 4C F7 FF: JMP to the OSCLI entry point. -/
def cfg9 : Disassembler := { NewDisassembler [0x4C, 0xF7, 0xFF] with MaxBytes := 3 }

/-- The OS call registry with the entry for 0xFFF7 removed (the
counterfactual half of C9). -/
def osCallsWithoutOscli : List (Nat × String) :=
  addressToOsCallName.filter (fun p => p.1 != 0xFFF7)

/-- Does the line start with the dot of a label definition? Only label
lines do: instruction and data lines start with a space, header lines
with a backslash, a name or an upper-case letter. -/
def startsWithDot (l : String) : Bool :=
  match l.data with
  | c :: _ => c == '.'
  | [] => false

/-- Count of emitted label lines. -/
def countLabelLines (lines : List String) : Nat :=
  (lines.filter startsWithDot).length

/-- Modelled from the spec: the user-variable substitution step of the
decoder. The variable-aware decode is not under src (only its
configuration caller disasm.AddVar appears, in the CLI sources); per spec
section 4.4 an Absolute non-jump operand first prefers the name of a user
variable whose value matches the 16-bit operand and otherwise behaves
exactly as the source decode does. -/
def decodeWithVars (vars : List (String × Nat))
    (osCalls : List (Nat × String)) (table : List (Nat × Nat)) (op : Opcode)
    (bytes : List Nat) (cursor branchAdjust : Nat) : String :=
  if op.AddrMode == .Absolute
      && !(bytes.getD 0 0 == OpJMP_Absolute)
      && !(bytes.getD 0 0 == OpJSR_Absolute)
      && !(op.branchOrJump == btBranch) then
    match (vars.find? (fun v =>
        v.2 == (bytes.getD 2 0) <<< 8 + bytes.getD 1 0)).map (fun v => v.1) with
    | Option.some name => name
    | Option.none => decode osCalls table op bytes cursor branchAdjust
  else decode osCalls table op bytes cursor branchAdjust

/-- Program LDA &1234 then NOP, load address 1, user code address 3: the
in-place CodeAddrs adjustment in Disassemble changes the second run. -/
def cfg6 : Disassembler :=
  { NewDisassembler [0xAD, 0x34, 0x12, 0xEA] with
      MaxBytes := 4, BranchAdjust := 1, CodeAddrs := [3] }

/-- A configuration without branch adjustment or code addresses, used to
witness the amended idempotence claim. -/
def cfg6w : Disassembler := { NewDisassembler [0xA9, 0xC8] with MaxBytes := 2 }

/- ------------------------------------------------ -/
/- Claims                                           -/
/- ------------------------------------------------ -/

/-- C1: willAssembleIdentically returns false iff the addressing mode is
Absolute, AbsoluteX or AbsoluteY and the 16-bit little-endian operand is
below 0x100; and the bytes AD 12 00 are emitted as one EQUB data line
(never as an absolute-mode instruction line). -/
theorem claim1_wai_iff_and_data_emission :
    (∀ op ∈ OpCodes, ∀ instruction : List Nat,
      instruction.length = op.Length →
      (willAssembleIdentically op instruction = false ↔
        ((op.AddrMode = .Absolute ∨ op.AddrMode = .AbsoluteX ∨
            op.AddrMode = .AbsoluteY) ∧
          (instruction.getD 2 0) <<< 8 + instruction.getD 1 0 < 0x100)))
    ∧ (cfg1.Disassemble addressToOsCallName 100).map DisResult.lines
        = Option.some (disasmHeaderLines addressToOsCallName [] [] 0
            ++ [" EQUB &AD,&12,&00       \\ &0000             ..."]) := by
  constructor
  · intro op _hmem instruction _hlen
    unfold willAssembleIdentically
    cases hmode : op.AddrMode <;> simp [hmode]
  · decide

/-- C1 witness: the LDA absolute descriptor with instruction bytes
AD 12 00 is classified round-trip-unsafe. -/
theorem claim1_wai_iff_and_data_emission_witness :
    willAssembleIdentically ⟨0xAD, "LDA", 3, .Absolute⟩ [0xAD, 0x12, 0x00]
      = false :=
  (claim1_wai_iff_and_data_emission.1 ⟨0xAD, "LDA", 3, .Absolute⟩ (by decide)
    [0xAD, 0x12, 0x00] (by decide)).mpr (by decide)

/-- C2: evaluation at the failing input cfg23 — the analyzer produces one
surviving branch target (address 4, label index 0), but the decode pass
emits zero label lines, while its output still references label_0. The
claimed equality of the two counts fails because the analyzer pass
subtracts BranchAdjust from the already adjusted code address in its
snap-forward rule (disassemble.go line 276). -/
theorem claim2_label_count_mismatch :
    (cfg23.Disassemble addressToOsCallName 100).map
        (fun r => (r.table, countLabelLines r.lines,
          r.lines.contains (" BEQ label_0            \\ &0006 F0 FC       ..")))
      = Option.some ([(4, 0)], 0, true) := by
  decide

/-- C3: evaluation at the failing input cfg23 — the analyzer pass visits
the in-buffer positions 0, 2, 3, 4 (its snap-forward rule subtracts
BranchAdjust a second time and even moves the cursor backwards from 3 to
2), while the decode pass visits 0, 3, 4; the two passes do not visit the
same set of instruction-start positions. -/
theorem claim3_passes_visit_different_positions :
    (cfg23.Disassemble addressToOsCallName 100).map
        (fun r => (r.analyzerVisited, r.decodeVisited))
      = Option.some ([0, 2, 3, 4], [0, 3, 4]) := by
  decide

/-- C5: evaluation at the failing input cfg5 — with the known-code address
0 pending at offset 0, one decode iteration emits an empty EQUB line and
returns the loop state unchanged (cursor still 0), so the loop does not
advance by at least one byte and never terminates: for every fuel bound
the decode loop fails to finish the one-byte window. -/
theorem claim5_stuck_decode_iteration :
    decodeStep cfg5 addressToOsCallName [] ⟨0, 0, 0⟩
        = .next [" EQUB                   \\ &0000             "] ⟨0, 0, 0⟩
    ∧ ∀ fuel lines visited,
        decodeLoop cfg5 addressToOsCallName [] fuel ⟨0, 0, 0⟩ lines visited
          = Option.none := by
  refine ⟨by decide, ?_⟩
  intro fuel
  induction fuel with
  | zero => intro lines visited; rfl
  | succ n ih =>
    intro lines visited
    show (if (0 : Nat) < wadd cfg5.Offset cfg5.MaxBytes then _ else _) = _
    rw [if_pos (by decide)]
    exact ih _ _

/-- C4 counterexample: at cfg4 the first decode step has cursor 0,
instruction length 2 and pending code address 2, so cursor plus length
does not strictly exceed the address; the code nevertheless classifies
the step as straddling and emits the documented, round-trip-safe LDA
immediate as an EQUB data line instead of an instruction line. -/
theorem claim4_counterexample :
    straddles cfg4 0 0 2 = true
    ∧ ¬ ((0 : Nat) + 2 > 2)
    ∧ (cfg4.Disassemble addressToOsCallName 100).map DisResult.lines
        = Option.some (disasmHeaderLines addressToOsCallName [] [] 0
            ++ [" EQUB &A9,&C8           \\ &0000             .."]) := by
  refine ⟨by decide, by decide, by decide⟩

/-- C4 (amended): at every decode step with a pending known-code address
ca at or beyond the post-snap cursor, the step is treated as straddling
iff cursor plus instruction length reaches or exceeds ca (the code uses
a greater-or-equal test, not the strict comparison of the claim); a
straddling step is emitted as one data line covering exactly the bytes
before ca, and the next step resumes exactly at address ca. -/
theorem claim4_amended (d : Disassembler) (osCalls : List (Nat × String))
    (table : List (Nat × Nat)) (s : DecSt) (b : Nat) (op : Opcode) (ca : Nat)
    (hidx : s.codeAddrIdx < d.CodeAddrs.length)
    (hca : d.CodeAddrs[s.codeAddrIdx] = ca)
    (hnosnap : ¬(s.prevCur < ca ∧ ca ≤ s.cursor))
    (hb : d.Program.get? s.cursor = Option.some b)
    (hop : OpCodesMap b = Option.some op)
    (hinb : s.cursor + op.Length ≤ d.Program.length)
    (hW : s.cursor + op.Length < W)
    (hahead : s.cursor ≤ ca) :
    (straddles d s.codeAddrIdx s.cursor op.Length = true ↔
      ca ≤ s.cursor + op.Length)
    ∧ (ca ≤ s.cursor + op.Length →
        decodeStep d osCalls table s =
          (let instruction := (d.Program.drop s.cursor).take (ca - s.cursor)
          let line := printData (" ") instruction (wadd s.cursor d.BranchAdjust)
          let line := if !(isOpcodeDocumented op) then line ++ "UD " ++ op.Name
            else line
          let line := appendPrintableBytes line instruction
          let labelLines : List String :=
            match lookupTable table (wadd s.cursor d.BranchAdjust) with
            | Option.some targetIdx => ["." ++ labelFormatString targetIdx]
            | Option.none => []
          .next (labelLines ++ [line]) ⟨ca, s.cursor, s.codeAddrIdx⟩)) := by
  have hcurW : s.cursor < W := by omega
  have hwadd : wadd s.cursor op.Length = s.cursor + op.Length := by
    unfold wadd; exact Nat.mod_eq_of_lt hW
  have hstr : straddles d s.codeAddrIdx s.cursor op.Length = true ↔
      ca ≤ s.cursor + op.Length := by
    unfold straddles
    rw [dif_pos hidx]
    simp [hca, hwadd]
  refine ⟨hstr, fun hle => ?_⟩
  have hcaW : ca < W := Nat.lt_of_le_of_lt hle hW
  have hwsub : wsub ca s.cursor = ca - s.cursor := by
    unfold wsub
    rw [Nat.mod_eq_of_lt hcurW]
    unfold W at hcaW ⊢
    omega
  have hstrT := hstr.mpr hle
  have hgetd : d.CodeAddrs.getD s.codeAddrIdx 0 = ca := by
    rw [List.getD_eq_getElem?_getD, List.getElem?_eq_getElem hidx]
    simpa using hca
  have hsnap : decodeSnap d s.cursor s.prevCur s.codeAddrIdx
      = (s.cursor, s.codeAddrIdx) := by
    unfold decodeSnap
    rw [dif_pos hidx, hca, if_neg hnosnap]
  unfold decodeStep
  rw [hsnap]
  simp only [hb, hop]
  rw [hwadd, if_pos (⟨Nat.le_add_right _ _, hinb⟩ : _ ∧ _)]
  rw [hstrT, hgetd, hwsub]
  simp only [Bool.not_true, Bool.and_false, Bool.false_eq_true, if_false,
    if_true]
  rw [if_pos (show ca - s.cursor ≤ d.Program.length - s.cursor by omega)]
  have hlen2 : (List.take (ca - s.cursor) (List.drop s.cursor d.Program)).length
      = ca - s.cursor := by
    simp only [List.length_take, List.length_drop]
    omega
  have hback : wadd s.cursor (ca - s.cursor) = ca := by
    unfold wadd
    unfold W at hcaW ⊢
    omega
  simp only [hlen2, hback]

/-- C4 witness: the amended straddle rule applied to cfg4 — the boundary
step is classified straddling (2 reaches 0 + 2), the full two bytes are
the bytes before address 2, and the next step resumes at 2. -/
theorem claim4_amended_witness :
    decodeStep cfg4 addressToOsCallName [] ⟨0, 0, 0⟩
      = .next [" EQUB &A9,&C8           \\ &0000             .."] ⟨2, 0, 0⟩ :=
  (claim4_amended cfg4 addressToOsCallName [] ⟨0, 0, 0⟩ 0xA9
    ⟨0xA9, "LDA", 2, .Immediate⟩ 2 (by decide) (by decide) (by decide)
    (by decide) (by decide) (by decide) (by decide) (by decide)).2 (by decide)

/-- Helper: an address listed in the label table built by indexify is a
member of the indexed list. -/
theorem mem_of_mem_indexify {t i : Nat} :
    ∀ (n : Nat) (l : List Nat), (t, i) ∈ indexify n l → t ∈ l := by
  intro n l
  induction l generalizing n with
  | nil => intro h; simp [indexify] at h
  | cons a rest ih =>
    intro h
    simp only [indexify, List.mem_cons, Prod.mk.injEq] at h
    rcases h with ⟨h1, _⟩ | h
    · exact h1 ▸ List.mem_cons_self a rest
    · exact List.mem_cons_of_mem a (ih _ h)

/-- Helper: every address in the built label table is a reachable
instruction start (survivors are filtered through iloc). -/
theorem mem_iloc_of_mem_table {targets iloc : List Nat} {t i : Nat}
    (h : (t, i) ∈ buildLabelTable targets iloc) : t ∈ iloc := by
  unfold buildLabelTable at h
  have h1 : t ∈ sortNat (targets.filter (fun x => iloc.contains x)) :=
    mem_of_mem_indexify _ _ h
  have h2 : t ∈ targets.filter (fun x => iloc.contains x) := by
    unfold sortNat at h1
    exact (List.perm_insertionSort _ _).mem_iff.mp h1
  have h3 := List.mem_filter.mp h2
  simpa using h3.2

/-- Helper: an address that is not a reachable instruction start has no
entry in the built label table. -/
theorem lookupTable_none_of_not_mem_iloc {targets iloc : List Nat} {t : Nat}
    (h : t ∉ iloc) :
    lookupTable (buildLabelTable targets iloc) t = Option.none := by
  unfold lookupTable
  cases hf : (buildLabelTable targets iloc).find? (fun p => p.1 == t) with
  | none => rfl
  | some p =>
    exfalso
    obtain ⟨p1, p2⟩ := p
    have hmem := List.mem_of_find?_eq_some hf
    have hp : p1 = t := by simpa using List.find?_some hf
    exact h (hp ▸ mem_iloc_of_mem_table hmem)

/-- C7: a relative branch whose computed target (the same arithmetic as the
analyzer uses) is not among the reachable instruction starts recorded by
the analyzer never yields a label: the target has no entry in the label
table (so no label line is emitted for it and no operand can reference
it), and genBranch renders the operand as the position-relative expression
P% followed by the signed biased displacement. -/
theorem claim7_unreachable_target_renders_relative (d : Disassembler)
    (osCalls : List (Nat × String)) (fuel : Nat) (a : AnalyzerResult)
    (bytes : List Nat) (cursor : Nat) (boff : Int) (tgt : Nat)
    (hrun : d.findBranchTargets osCalls fuel = Option.some a)
    (hboff : boff = (if bytes.getD 1 0 > 127 then
        ((bytes.getD 1 0 : Nat) : Int) - 256
      else ((bytes.getD 1 0 : Nat) : Int)) + 2)
    (htgt : tgt = wadd (wadd cursor (wofInt boff)) d.BranchAdjust)
    (hun : tgt ∉ a.iloc) :
    (∀ i : Nat, (tgt, i) ∉ a.table)
    ∧ genBranch a.table bytes cursor d.BranchAdjust
        = "P%" ++ goPlusD boff := by
  unfold Disassembler.findBranchTargets at hrun
  cases hloop : analyzerLoop d osCalls fuel
      ⟨d.Offset, d.Offset, 0, [], [], d.usedOSAddress, d.usedOSVector⟩ [] with
  | none => rw [hloop] at hrun; exact absurd hrun (by simp)
  | some pr =>
    obtain ⟨sfin, vis⟩ := pr
    rw [hloop] at hrun
    injection hrun with hrun
    subst hrun
    simp only at hun
    have htab : ∀ i : Nat,
        (tgt, i) ∉ buildLabelTable sfin.branchTargets sfin.iloc := by
      intro i hmem
      exact hun (mem_iloc_of_mem_table hmem)
    have hnone : lookupTable (buildLabelTable sfin.branchTargets sfin.iloc) tgt
        = Option.none := lookupTable_none_of_not_mem_iloc hun
    refine ⟨htab, ?_⟩
    simp only [genBranch, ← hboff, ← htgt, hnone]

/-- C7 witness: BEQ with displacement 0x10 in a two-byte window — target 18
is unreachable, has no table entry, and the operand renders as P%+18. -/
theorem claim7_unreachable_target_renders_relative_witness :
    (∀ i : Nat, ((18 : Nat), i) ∉ ([] : List (Nat × Nat)))
    ∧ genBranch [] [0xF0, 0x10] 0 0 = "P%" ++ goPlusD 18 :=
  claim7_unreachable_target_renders_relative cfg7 addressToOsCallName 10
    ⟨[], [0], [18], [], [], [0]⟩ [0xF0, 0x10] 0 18 18
    (by decide) (by decide) (by decide) (by decide)

set_option maxRecDepth 8192 in
/-- Table fact used by C8: every Absolute-mode opcode other than JMP and
JSR classifies as neither branch nor jump. -/
theorem absolute_nonjump_is_btNeither :
    ∀ op ∈ OpCodes, op.AddrMode = AddressingMode.Absolute →
      op.Value ≠ OpJMP_Absolute → op.Value ≠ OpJSR_Absolute →
      op.branchOrJump = btNeither := by decide

/-- C8: for a non-jump instruction with Absolute addressing the operand
text follows the preference order: name of a matching user variable, exact
OS-vector name, OS-vector name of the address with the low bit cleared
plus a "+1" suffix, and otherwise the four-digit hex address. -/
theorem claim8_absolute_operand_preference (vars : List (String × Nat))
    (osCalls : List (Nat × String)) (table : List (Nat × Nat)) (op : Opcode)
    (bytes : List Nat) (cursor branchAdjust val : Nat)
    (hmem : op ∈ OpCodes) (hmode : op.AddrMode = .Absolute)
    (hb0 : bytes.getD 0 0 = op.Value)
    (hjmp : op.Value ≠ OpJMP_Absolute) (hjsr : op.Value ≠ OpJSR_Absolute)
    (hval : val = (bytes.getD 2 0) <<< 8 + bytes.getD 1 0) :
    (∀ name : String,
      (vars.find? (fun v => v.2 == val)).map (fun v => v.1)
          = Option.some name →
      decodeWithVars vars osCalls table op bytes cursor branchAdjust = name)
    ∧ ((vars.find? (fun v => v.2 == val)).map (fun v => v.1) = Option.none →
       ∀ osv : String, lookupAssoc osVectorAddresses val = Option.some osv →
       decodeWithVars vars osCalls table op bytes cursor branchAdjust = osv)
    ∧ ((vars.find? (fun v => v.2 == val)).map (fun v => v.1) = Option.none →
       lookupAssoc osVectorAddresses val = Option.none →
       ∀ osv : String,
       lookupAssoc osVectorAddresses (val - val % 2) = Option.some osv →
       decodeWithVars vars osCalls table op bytes cursor branchAdjust
         = osv ++ "+1")
    ∧ ((vars.find? (fun v => v.2 == val)).map (fun v => v.1) = Option.none →
       lookupAssoc osVectorAddresses val = Option.none →
       lookupAssoc osVectorAddresses (val - val % 2) = Option.none →
       decodeWithVars vars osCalls table op bytes cursor branchAdjust
         = "&" ++ hex4 val) := by
  have hbt := absolute_nonjump_is_btNeither op hmem hmode hjmp hjsr
  have hcond : (op.AddrMode == AddressingMode.Absolute
      && !(bytes.getD 0 0 == OpJMP_Absolute)
      && !(bytes.getD 0 0 == OpJSR_Absolute)
      && !(op.branchOrJump == btBranch)) = true := by
    simp only [hb0, hmode, hbt]
    simp [hjmp, hjsr]
  have hdec : decode osCalls table op bytes cursor branchAdjust =
      match lookupAssoc osVectorAddresses val with
      | Option.some osv => osv
      | Option.none =>
        -- val - val % 2 clears the bottom bit, the andnot of the source
        match lookupAssoc osVectorAddresses (val - val % 2) with
        | Option.some osv => osv ++ "+1"
        | Option.none => "&" ++ hex4 val := by
    unfold decode
    rw [if_neg, if_neg]
    · rw [hmode, ← hval]
    · simp [hbt]
    · simp only [hb0]
      simp [hjmp, hjsr]
  refine ⟨?_, ?_, ?_, ?_⟩
  · intro name hfind
    unfold decodeWithVars
    rw [if_pos hcond, ← hval, hfind]
  · intro hfind osv hvec
    unfold decodeWithVars
    rw [if_pos hcond, ← hval, hfind, hdec, hvec]
  · intro hfind hvec1 osv hvec2
    unfold decodeWithVars
    rw [if_pos hcond, ← hval, hfind, hdec, hvec1, hvec2]
  · intro hfind hvec1 hvec2
    unfold decodeWithVars
    rw [if_pos hcond, ← hval, hfind, hdec, hvec1, hvec2]

/-- C8 witness: STA absolute of 0x3000 with a matching user variable SCREEN
renders the variable name. -/
theorem claim8_absolute_operand_preference_witness :
    decodeWithVars [("SCREEN", 0x3000)] addressToOsCallName []
      ⟨0x8D, "STA", 3, .Absolute⟩ [0x8D, 0x00, 0x30] 0 0 = "SCREEN" :=
  (claim8_absolute_operand_preference [("SCREEN", 0x3000)]
    addressToOsCallName [] ⟨0x8D, "STA", 3, .Absolute⟩ [0x8D, 0x00, 0x30]
    0 0 0x3000 (by decide) (by decide) (by decide) (by decide) (by decide)
    (by decide)).1 ("SCREEN") (by decide)

/-- C9: disassembling 4C F7 FF with the standard OS-call registry renders
the jump operand as OSCLI and the header contains the OSCLI definition
line; with 0xFFF7 absent from the registry the operand is the bare hex
address and the header has no OS-call section at all. -/
theorem claim9_oscall_naming_and_header :
    (cfg9.Disassemble addressToOsCallName 100).map DisResult.lines
      = Option.some (disasmHeaderLines addressToOsCallName [0xFFF7] [] 0
          ++ [" JMP OSCLI              \\ &0000 4C F7 FF    L.."])
    ∧ (disasmHeaderLines addressToOsCallName [0xFFF7] [] 0).contains
        ("OSCLI  = &FFF7")
    ∧ (cfg9.Disassemble osCallsWithoutOscli 100).map DisResult.lines
      = Option.some (disasmHeaderLines osCallsWithoutOscli [] [] 0
          ++ [" JMP &FFF7              \\ &0000 4C F7 FF    L.."])
    ∧ (disasmHeaderLines osCallsWithoutOscli [] [] 0).all
        (fun l => !(l == "OSCLI  = &FFF7")) := by
  refine ⟨by decide, by decide, by decide, by decide⟩

/-- C10: when a recognized opcode starts at a cursor position with fewer
bytes remaining in the program buffer than the declared instruction
length (no code address pending), the slice Program[cursor:cursor+Length]
exceeds the buffer bounds and both the analyzer step and the decode step
panic instead of producing a successor state for that trailing
instruction. -/
theorem claim10_truncated_trailing_instruction_panics (d : Disassembler)
    (osCalls : List (Nat × String)) (table : List (Nat × Nat))
    (sA : AnalSt) (sD : DecSt) (b : Nat) (op : Opcode)
    (hnoca : d.CodeAddrs = [])
    (hsame : sA.cursor = sD.cursor)
    (hb : d.Program.get? sD.cursor = Option.some b)
    (hop : OpCodesMap b = Option.some op)
    (hshort : d.Program.length < sD.cursor + op.Length)
    (hW : sD.cursor + op.Length < W) :
    analyzerStep d osCalls sA = Option.none
    ∧ (decodeStep d osCalls table sD).isPanic = true := by
  have hwadd : wadd sD.cursor op.Length = sD.cursor + op.Length := by
    unfold wadd; exact Nat.mod_eq_of_lt hW
  have hslice : ¬(sD.cursor ≤ sD.cursor + op.Length ∧
      sD.cursor + op.Length ≤ d.Program.length) := by omega
  constructor
  · have hsnap : analyzerSnap d sA.cursor sA.prevCur sA.codeAddrIdx
        = (sA.cursor, sA.codeAddrIdx) := by
      unfold analyzerSnap
      rw [dif_neg (by simp [hnoca])]
    unfold analyzerStep
    rw [hsnap]
    simp only [hsame, hb, hop, hnoca]
    simp only [List.getElem?_nil]
    rw [hwadd, if_neg hslice]
  · have hsnap : decodeSnap d sD.cursor sD.prevCur sD.codeAddrIdx
        = (sD.cursor, sD.codeAddrIdx) := by
      unfold decodeSnap
      rw [dif_neg (by simp [hnoca])]
    unfold decodeStep
    rw [hsnap]
    simp only [hb, hop]
    rw [hwadd, if_neg hslice]
    rfl

/-- C10 witness: cfg10 has the 3-byte LDA absolute opcode at buffer
position 1 of a 2-byte program; both passes panic there. -/
theorem claim10_truncated_trailing_instruction_panics_witness :
    analyzerStep cfg10 addressToOsCallName ⟨1, 0, 0, [0], [], [], []⟩
        = Option.none
    ∧ (decodeStep cfg10 addressToOsCallName [] ⟨1, 0, 0⟩).isPanic = true :=
  claim10_truncated_trailing_instruction_panics cfg10 addressToOsCallName []
    ⟨1, 0, 0, [0], [], [], []⟩ ⟨1, 0, 0⟩ 0xAD ⟨0xAD, "LDA", 3, .Absolute⟩
    (by decide) (by decide) (by decide) (by decide) (by decide) (by decide)

/-- C6 counterexample: at cfg6 (branch adjustment 1, one known-code
address) both runs of Disassemble complete, but the second run emits
different output than the first: Disassemble subtracted BranchAdjust from
CodeAddrs in place during the first run, and the second run subtracts it
again. -/
theorem claim6_counterexample :
    ((cfg6.Disassemble addressToOsCallName 100).bind (fun r1 =>
        (r1.final.Disassemble addressToOsCallName 100).map (fun r2 =>
          r1.lines == r2.lines)))
      = Option.some false := by decide

/-- The inserted key is a member of the result of insertKey. -/
theorem mem_insertKey_self (l : List Nat) (k : Nat) : k ∈ insertKey l k := by
  unfold insertKey
  split
  · next h => exact List.elem_iff.mp h
  · simp

/-- insertKey preserves existing members. -/
theorem mem_insertKey_of_mem {l : List Nat} {k j : Nat} (h : j ∈ l) :
    j ∈ insertKey l k := by
  unfold insertKey
  split
  · exact h
  · simp [h]

/-- Inserting a key that is already present leaves the set unchanged. -/
theorem insertKey_of_mem {l : List Nat} {k : Nat} (h : k ∈ l) :
    insertKey l k = l := by
  simp [insertKey, List.elem_iff.mpr h, h]

/-- The analyzer step reads none of the used-OS fields of the
Disassembler. -/
theorem dused_analyzerStep (P : List Nat) (MB OFF ADJ : Nat) (CA : List Nat)
    (os vec x y : List Nat) (o : List (Nat × String)) (s : AnalSt) :
    analyzerStep ⟨P, MB, OFF, ADJ, CA, x, y⟩ o s
      = analyzerStep ⟨P, MB, OFF, ADJ, CA, os, vec⟩ o s := rfl

/-- The decode step reads none of the used-OS fields of the
Disassembler. -/
theorem dused_decodeStep (P : List Nat) (MB OFF ADJ : Nat) (CA : List Nat)
    (os vec x y : List Nat) (o : List (Nat × String))
    (t : List (Nat × Nat)) (s : DecSt) :
    decodeStep ⟨P, MB, OFF, ADJ, CA, x, y⟩ o t s
      = decodeStep ⟨P, MB, OFF, ADJ, CA, os, vec⟩ o t s := rfl

/-- Absorption: replacing the used-OS accumulators of the analyzer state
by supersets of everything the step marks leaves them unchanged while the
control components evolve identically. -/
theorem analyzerStep_osvec (d : Disassembler) (o : List (Nat × String))
    (cur prev idx : Nat) (iloc tg os vec : List Nat) (s1 : AnalSt)
    (x y : List Nat)
    (h : analyzerStep d o ⟨cur, prev, idx, iloc, tg, os, vec⟩ = Option.some s1)
    (hx : ∀ k, k ∈ s1.usedOSAddress → k ∈ x)
    (hy : ∀ k, k ∈ s1.usedOSVector → k ∈ y) :
    analyzerStep d o ⟨cur, prev, idx, iloc, tg, x, y⟩
      = Option.some { s1 with usedOSAddress := x, usedOSVector := y } := by
  unfold analyzerStep at h ⊢
  simp only at h ⊢
  rcases hsn : analyzerSnap d cur prev idx with ⟨c2, i2⟩
  rw [hsn] at h
  simp only at h ⊢
  cases hget : d.Program.get? c2 with
  | none => rw [hget] at h; exact absurd h (by simp)
  | some b =>
    rw [hget] at h
    simp only at h ⊢
    cases hopc : OpCodesMap b with
    | none =>
      rw [hopc] at h
      simp only at h ⊢
      injection h with h
      subst h
      rfl
    | some op =>
      rw [hopc] at h
      simp only at h ⊢
      cases hca2 : d.CodeAddrs[i2]? with
      | some ca2 =>
        rw [hca2] at h
        simp only at h ⊢
        by_cases hlt : ca2 < wadd c2 op.Length
        · rw [if_pos hlt] at h ⊢
          simp only at h ⊢
          injection h with h
          subst h
          rfl
        · rw [if_neg hlt] at h ⊢
          simp only at h ⊢
          by_cases hsl : c2 ≤ wadd c2 op.Length ∧ wadd c2 op.Length ≤ d.Program.length
          · rw [if_pos hsl] at h ⊢
            cases hbj : op.branchOrJump with
            | btBranch =>
              rw [hbj] at h
              simp only at h ⊢
              injection h with h
              subst h
              rfl
            | btJump =>
              rw [hbj] at h
              simp only at h ⊢
              by_cases hji : b ≠ OpJMP_Indirect
              · rw [if_pos hji] at h ⊢
                split at h
                next hvs =>
                  rw [if_pos hvs]
                  injection h with h
                  subst h
                  rw [insertKey_of_mem (hx _ (mem_insertKey_self _ _))]
                next hvs =>
                  rw [if_neg hvs]
                  injection h with h
                  subst h
                  rfl
              · rw [if_neg hji] at h ⊢
                injection h with h
                subst h
                rfl
            | btNeither =>
              rw [hbj] at h
              simp only at h ⊢
              split at h
              next hmd =>
                rw [if_pos hmd]
                split at h
                next hvs =>
                  rw [if_pos hvs]
                  injection h with h
                  subst h
                  rw [insertKey_of_mem (hy _ (mem_insertKey_self _ _))]
                next hvs =>
                  rw [if_neg hvs]
                  injection h with h
                  subst h
                  rfl
              next hmd =>
                rw [if_neg hmd]
                injection h with h
                subst h
                rfl
          · rw [if_neg hsl] at h
            exact absurd h (by simp)
      | none =>
        rw [hca2] at h
        simp only at h ⊢
        by_cases hsl : c2 ≤ wadd c2 op.Length ∧ wadd c2 op.Length ≤ d.Program.length
        · rw [if_pos hsl] at h ⊢
          cases hbj : op.branchOrJump with
          | btBranch =>
            rw [hbj] at h
            simp only at h ⊢
            injection h with h
            subst h
            rfl
          | btJump =>
            rw [hbj] at h
            simp only at h ⊢
            by_cases hji : b ≠ OpJMP_Indirect
            · rw [if_pos hji] at h ⊢
              split at h
              next hvs =>
                rw [if_pos hvs]
                injection h with h
                subst h
                rw [insertKey_of_mem (hx _ (mem_insertKey_self _ _))]
              next hvs =>
                rw [if_neg hvs]
                injection h with h
                subst h
                rfl
            · rw [if_neg hji] at h ⊢
              injection h with h
              subst h
              rfl
          | btNeither =>
            rw [hbj] at h
            simp only at h ⊢
            split at h
            next hmd =>
              rw [if_pos hmd]
              split at h
              next hvs =>
                rw [if_pos hvs]
                injection h with h
                subst h
                rw [insertKey_of_mem (hy _ (mem_insertKey_self _ _))]
              next hvs =>
                rw [if_neg hvs]
                injection h with h
                subst h
                rfl
            next hmd =>
              rw [if_neg hmd]
              injection h with h
              subst h
              rfl
        · rw [if_neg hsl] at h
          exact absurd h (by simp)

/-- The used-OS accumulators of the analyzer only grow at each step. -/
theorem analyzerStep_mono (d : Disassembler) (o : List (Nat × String))
    (cur prev idx : Nat) (iloc tg os vec : List Nat) (s1 : AnalSt)
    (h : analyzerStep d o ⟨cur, prev, idx, iloc, tg, os, vec⟩
      = Option.some s1) :
    (∀ k, k ∈ os → k ∈ s1.usedOSAddress)
    ∧ ∀ k, k ∈ vec → k ∈ s1.usedOSVector := by
  unfold analyzerStep at h
  simp only at h
  rcases hsn : analyzerSnap d cur prev idx with ⟨c2, i2⟩
  rw [hsn] at h
  simp only at h
  cases hget : d.Program.get? c2 with
  | none => rw [hget] at h; exact absurd h (by simp)
  | some b =>
    rw [hget] at h
    simp only at h
    cases hopc : OpCodesMap b with
    | none =>
      rw [hopc] at h
      simp only at h
      injection h with h
      subst h
      exact ⟨fun k hk => hk, fun k hk => hk⟩
    | some op =>
      rw [hopc] at h
      simp only at h
      cases hca2 : d.CodeAddrs[i2]? with
      | some ca2 =>
        rw [hca2] at h
        simp only at h
        by_cases hlt : ca2 < wadd c2 op.Length
        · rw [if_pos hlt] at h
          simp only at h
          injection h with h
          subst h
          exact ⟨fun k hk => hk, fun k hk => hk⟩
        rw [if_neg hlt] at h
        simp only at h
        by_cases hsl : c2 ≤ wadd c2 op.Length ∧ wadd c2 op.Length ≤ d.Program.length
        · rw [if_pos hsl] at h
          cases hbj : op.branchOrJump with
          | btBranch =>
            rw [hbj] at h
            simp only at h
            injection h with h
            subst h
            exact ⟨fun k hk => hk, fun k hk => hk⟩
          | btJump =>
            rw [hbj] at h
            simp only at h
            by_cases hji : b ≠ OpJMP_Indirect
            · rw [if_pos hji] at h
              split at h
              next hvs =>
                injection h with h
                subst h
                exact ⟨fun k hk => mem_insertKey_of_mem hk, fun k hk => hk⟩
              next hvs =>
                injection h with h
                subst h
                exact ⟨fun k hk => hk, fun k hk => hk⟩
            · rw [if_neg hji] at h
              injection h with h
              subst h
              exact ⟨fun k hk => hk, fun k hk => hk⟩
          | btNeither =>
            rw [hbj] at h
            simp only at h
            split at h
            next hmd =>
              split at h
              next hvs =>
                injection h with h
                subst h
                exact ⟨fun k hk => hk, fun k hk => mem_insertKey_of_mem hk⟩
              next hvs =>
                injection h with h
                subst h
                exact ⟨fun k hk => hk, fun k hk => hk⟩
            next hmd =>
              injection h with h
              subst h
              exact ⟨fun k hk => hk, fun k hk => hk⟩
        · rw [if_neg hsl] at h
          exact absurd h (by simp)
      | none =>
        rw [hca2] at h
        simp only at h
        by_cases hsl : c2 ≤ wadd c2 op.Length ∧ wadd c2 op.Length ≤ d.Program.length
        · rw [if_pos hsl] at h
          cases hbj : op.branchOrJump with
          | btBranch =>
            rw [hbj] at h
            simp only at h
            injection h with h
            subst h
            exact ⟨fun k hk => hk, fun k hk => hk⟩
          | btJump =>
            rw [hbj] at h
            simp only at h
            by_cases hji : b ≠ OpJMP_Indirect
            · rw [if_pos hji] at h
              split at h
              next hvs =>
                injection h with h
                subst h
                exact ⟨fun k hk => mem_insertKey_of_mem hk, fun k hk => hk⟩
              next hvs =>
                injection h with h
                subst h
                exact ⟨fun k hk => hk, fun k hk => hk⟩
            · rw [if_neg hji] at h
              injection h with h
              subst h
              exact ⟨fun k hk => hk, fun k hk => hk⟩
          | btNeither =>
            rw [hbj] at h
            simp only at h
            split at h
            next hmd =>
              split at h
              next hvs =>
                injection h with h
                subst h
                exact ⟨fun k hk => hk, fun k hk => mem_insertKey_of_mem hk⟩
              next hvs =>
                injection h with h
                subst h
                exact ⟨fun k hk => hk, fun k hk => hk⟩
            next hmd =>
              injection h with h
              subst h
              exact ⟨fun k hk => hk, fun k hk => hk⟩
        · rw [if_neg hsl] at h
          exact absurd h (by simp)

/-- The used-OS accumulators of the analyzer only grow over a whole
run. -/
theorem analyzerLoop_mono (d : Disassembler) (o : List (Nat × String)) :
    ∀ (fuel : Nat) (s : AnalSt) (vis : List Nat) (sf : AnalSt)
      (visf : List Nat),
    analyzerLoop d o fuel s vis = Option.some (sf, visf) →
    (∀ k, k ∈ s.usedOSAddress → k ∈ sf.usedOSAddress)
    ∧ ∀ k, k ∈ s.usedOSVector → k ∈ sf.usedOSVector := by
  intro fuel
  induction fuel with
  | zero => intro s vis sf visf h; exact absurd h (by simp [analyzerLoop])
  | succ n ih =>
    intro s vis sf visf h
    rw [analyzerLoop] at h
    split at h
    · cases hstep : analyzerStep d o s with
      | none => rw [hstep] at h; exact absurd h (by simp)
      | some s2 =>
        rw [hstep] at h
        obtain ⟨cur, prev, idx, iloc, tg, os, vec⟩ := s
        have hm := analyzerStep_mono d o cur prev idx iloc tg os vec s2 hstep
        have hrest := ih s2 _ sf visf h
        exact ⟨fun k hk => hrest.1 k (hm.1 k hk),
          fun k hk => hrest.2 k (hm.2 k hk)⟩
    · injection h with h
      injection h with h1 h2
      subst h1
      exact ⟨fun k hk => hk, fun k hk => hk⟩

/-- Loop-level absorption: rerunning the analyzer from used-OS sets that
already contain every mark of the run reproduces the run with those sets
unchanged. -/
theorem analyzerLoop_osvec (d : Disassembler) (o : List (Nat × String)) :
    ∀ (fuel : Nat) (cur prev idx : Nat) (iloc tg os vec : List Nat)
      (vis : List Nat) (sf : AnalSt) (visf : List Nat) (x y : List Nat),
    analyzerLoop d o fuel ⟨cur, prev, idx, iloc, tg, os, vec⟩ vis
        = Option.some (sf, visf) →
    (∀ k, k ∈ sf.usedOSAddress → k ∈ x) →
    (∀ k, k ∈ sf.usedOSVector → k ∈ y) →
    analyzerLoop d o fuel ⟨cur, prev, idx, iloc, tg, x, y⟩ vis
      = Option.some ({ sf with usedOSAddress := x, usedOSVector := y },
          visf) := by
  intro fuel
  induction fuel with
  | zero => intro _ _ _ _ _ _ _ _ _ _ _ _ h _ _; exact absurd h (by simp [analyzerLoop])
  | succ n ih =>
    intro cur prev idx iloc tg os vec vis sf visf x y h hx hy
    rw [analyzerLoop] at h ⊢
    simp only at h ⊢
    split at h
    next hc =>
      rw [if_pos hc]
      cases hstep : analyzerStep d o ⟨cur, prev, idx, iloc, tg, os, vec⟩ with
      | none => rw [hstep] at h; exact absurd h (by simp)
      | some s2 =>
        rw [hstep] at h
        have hlm := analyzerLoop_mono d o n s2 _ sf visf h
        have habs := analyzerStep_osvec d o cur prev idx iloc tg os vec s2 x y
          hstep (fun k hk => hx k (hlm.1 k hk)) (fun k hk => hy k (hlm.2 k hk))
        rw [habs]
        obtain ⟨c2, p2, i2, il2, tg2, os2, vec2⟩ := s2
        exact ih c2 p2 i2 il2 tg2 os2 vec2 _ sf visf x y h hx hy
    next hc =>
      rw [if_neg hc]
      injection h with h
      injection h with h1 h2
      subst h1
      subst h2
      rfl

/-- The analyzer loop reads none of the used-OS fields of the
Disassembler. -/
theorem dused_analyzerLoop (P : List Nat) (MB OFF ADJ : Nat) (CA : List Nat)
    (os vec x y : List Nat) (o : List (Nat × String)) :
    ∀ (fuel : Nat) (s : AnalSt) (vis : List Nat),
    analyzerLoop ⟨P, MB, OFF, ADJ, CA, x, y⟩ o fuel s vis
      = analyzerLoop ⟨P, MB, OFF, ADJ, CA, os, vec⟩ o fuel s vis := by
  intro fuel
  induction fuel with
  | zero => intro s vis; rfl
  | succ n ih =>
    intro s vis
    rw [analyzerLoop, analyzerLoop]
    simp only [dused_analyzerStep P MB OFF ADJ CA os vec x y o, ih]

/-- The decode loop reads none of the used-OS fields of the
Disassembler. -/
theorem dused_decodeLoop (P : List Nat) (MB OFF ADJ : Nat) (CA : List Nat)
    (os vec x y : List Nat) (o : List (Nat × String)) (t : List (Nat × Nat)) :
    ∀ (fuel : Nat) (s : DecSt) (lines : List String) (vis : List Nat),
    decodeLoop ⟨P, MB, OFF, ADJ, CA, x, y⟩ o t fuel s lines vis
      = decodeLoop ⟨P, MB, OFF, ADJ, CA, os, vec⟩ o t fuel s lines vis := by
  intro fuel
  induction fuel with
  | zero => intro s lines vis; rfl
  | succ n ih =>
    intro s lines vis
    rw [decodeLoop, decodeLoop]
    simp only [dused_decodeStep P MB OFF ADJ CA os vec x y o t, ih]

/-- Go uint subtraction of zero is the identity below the word size. -/
theorem wsub_zero {a : Nat} (ha : a < W) : wsub a 0 = a := by
  unfold wsub W at *
  omega

/-- Adjusting a list of in-range addresses by zero is the identity. -/
theorem map_wsub_zero {l : List Nat} (hl : ∀ a ∈ l, a < W) :
    List.map (fun ca => wsub ca 0) l = l := by
  induction l with
  | nil => rfl
  | cons a t ih =>
    simp only [List.map_cons]
    rw [wsub_zero (hl a (by simp)), ih (fun b hb => hl b (by simp [hb]))]

/-- The in-place CodeAddrs processing of Disassemble is a fixed point on
its own output when the branch adjustment is zero or the list is empty. -/
theorem processedCA_fixed (ADJ : Nat) (CA : List Nat)
    (hWca : ∀ ca ∈ CA, ca < W) (hcfg : ADJ = 0 ∨ CA = []) :
    (if 0 < (if 0 < CA.length then
          List.map (fun ca => wsub ca ADJ) (sortNat CA) else CA).length then
        List.map (fun ca => wsub ca ADJ)
          (sortNat (if 0 < CA.length then
            List.map (fun ca => wsub ca ADJ) (sortNat CA) else CA))
      else (if 0 < CA.length then
        List.map (fun ca => wsub ca ADJ) (sortNat CA) else CA))
    = (if 0 < CA.length then
        List.map (fun ca => wsub ca ADJ) (sortNat CA) else CA) := by
  rcases hcfg with hadj | hca
  · subst hadj
    by_cases hlen : 0 < CA.length
    · have hmem : ∀ a ∈ sortNat CA, a < W := by
        intro a ha
        exact hWca a ((List.perm_insertionSort _ CA).mem_iff.mp ha)
      rw [if_pos hlen, map_wsub_zero hmem]
      have hlen2 : 0 < (sortNat CA).length := by
        unfold sortNat
        rw [List.length_insertionSort]
        exact hlen
      rw [if_pos hlen2]
      have hsorted : sortNat (sortNat CA) = sortNat CA := by
        unfold sortNat
        exact List.Sorted.insertionSort_eq (List.sorted_insertionSort _ CA)
      rw [hsorted, map_wsub_zero hmem]
    · rw [if_neg hlen, if_neg hlen]
  · subst hca
    simp

/-- C6 (amended): provided the branch adjustment is zero or the
known-code-address list is empty (and the used-OS sets start empty, as
NewDisassembler leaves them), running Disassemble a second time on the
Disassembler state returned by a first run reproduces exactly the same
result: identical output lines, label table, visited positions and final
state. Without that proviso the claim fails because Disassemble adjusts
CodeAddrs in place (see the counterexample). -/
theorem claim6_amended (d : Disassembler) (osCalls : List (Nat × String))
    (fuel : Nat) (r : DisResult)
    (hos : d.usedOSAddress = []) (hvec : d.usedOSVector = [])
    (hWca : ∀ ca ∈ d.CodeAddrs, ca < W)
    (hcfg : d.BranchAdjust = 0 ∨ d.CodeAddrs = [])
    (hrun : d.Disassemble osCalls fuel = Option.some r) :
    r.final.Disassemble osCalls fuel = Option.some r := by
  obtain ⟨P, MB, OFF, ADJ, CA, OS, VEC⟩ := d
  simp only at hos hvec hWca hcfg
  subst hos
  subst hvec
  have hA := processedCA_fixed ADJ CA hWca hcfg
  unfold Disassembler.Disassemble at hrun
  simp only at hrun
  cases hfb : Disassembler.findBranchTargets
      ⟨P, MB, OFF, ADJ,
        if 0 < CA.length then
          List.map (fun ca => wsub ca ADJ) (sortNat CA) else CA,
        [], []⟩ osCalls fuel with
  | none => rw [hfb] at hrun; exact absurd hrun (by simp)
  | some fb =>
    rw [hfb] at hrun
    simp only at hrun
    cases hdl : decodeLoop
        ⟨P, MB, OFF, ADJ,
          if 0 < CA.length then
            List.map (fun ca => wsub ca ADJ) (sortNat CA) else CA,
          [], []⟩ osCalls fb.table fuel ⟨OFF, OFF, 0⟩ [] [] with
    | none => rw [hdl] at hrun; exact absurd hrun (by simp)
    | some bodyvis =>
      obtain ⟨body, visited⟩ := bodyvis
      rw [hdl] at hrun
      simp only at hrun
      injection hrun with hrun
      subst hrun
      -- second run
      unfold Disassembler.Disassemble
      simp only
      rw [hA]
      -- the analyzer of the second run reproduces fb
      have hfb2 : Disassembler.findBranchTargets
          ⟨P, MB, OFF, ADJ,
            if 0 < CA.length then
              List.map (fun ca => wsub ca ADJ) (sortNat CA) else CA,
            fb.usedOSAddress, fb.usedOSVector⟩ osCalls fuel
          = Option.some fb := by
        unfold Disassembler.findBranchTargets at hfb ⊢
        simp only at hfb ⊢
        cases hal : analyzerLoop
            ⟨P, MB, OFF, ADJ,
              if 0 < CA.length then
                List.map (fun ca => wsub ca ADJ) (sortNat CA) else CA,
              [], []⟩ osCalls fuel ⟨OFF, OFF, 0, [], [], [], []⟩ [] with
        | none => rw [hal] at hfb; exact absurd hfb (by simp)
        | some pr =>
          obtain ⟨sfin, vis⟩ := pr
          rw [hal] at hfb
          simp only at hfb
          injection hfb with hfb
          subst hfb
          rw [dused_analyzerLoop P MB OFF ADJ _ [] [] _ _ osCalls]
          have habs := analyzerLoop_osvec
            ⟨P, MB, OFF, ADJ,
              if 0 < CA.length then
                List.map (fun ca => wsub ca ADJ) (sortNat CA) else CA,
              [], []⟩ osCalls fuel OFF OFF 0 [] [] [] [] []
            sfin vis sfin.usedOSAddress sfin.usedOSVector hal
            (fun k hk => hk) (fun k hk => hk)
          rw [habs]
      rw [hfb2]
      simp only
      rw [dused_decodeLoop P MB OFF ADJ _ [] [] _ _ osCalls fb.table]
      rw [hdl]

/-- C6 witness: on a two-byte program with no code addresses and zero
branch adjustment, the second run reproduces the first exactly. -/
theorem claim6_amended_witness :
    ((cfg6w.Disassemble addressToOsCallName 20).bind
        (fun r => r.final.Disassemble addressToOsCallName 20))
      = cfg6w.Disassemble addressToOsCallName 20 := by
  cases hr : cfg6w.Disassemble addressToOsCallName 20 with
  | none => exact absurd hr (by decide)
  | some r =>
    simp only [Option.bind]
    exact claim6_amended cfg6w addressToOsCallName 20 r rfl rfl
      (by simp [cfg6w, NewDisassembler]) (Or.inl rfl) hr

end BbcDisasm
